import Mathlib

/-!
Verification of the validation/loading core of the cmi-pb-terminology repository.

The Lean definitions below are a shallow embedding of the Python source:

  * `src/cmi_pb_script/load.py`   (configuration, dependency sort, inserts)
  * `src/src/cmi_pb_script/validate.py` (the cell/row validators)

Python dicts whose key sets are fixed become structures; dicts used as maps
become association lists or Lean functions; a row (a dict from column names
to cells, where every row of a table carries exactly the table's columns)
becomes a total function `String → Cell`.  The SQLite engine is an external
collaborator: its verdicts (integrity violations, regex matching inside the
`re` module, foreign-table lookups) enter as explicit function parameters,
and the relational contents of a table become Lean lists.
-/

namespace CmiPb

/-- A validation message `{rule, level, message}` attached to a cell. -/
structure Msg where
  rule : String
  level : String
  message : String
deriving DecidableEq

/-- A cell record as built by `validate_rows_intra` in validate.py:
`{value, valid, messages}` plus the optional `nulltype` key, which is only
ever added by `validate_cell_nulltype`.  `nulltype = none` models the key
being absent from the Python dict. -/
structure Cell where
  value : String
  valid : Bool := true
  messages : List Msg := []
  nulltype : Option String := none
deriving DecidableEq

/-- Argument node of a parsed condition, as produced by the Lark
transformer.  A string argument carries a `value` key, a regex argument
carries `pattern` and `flags` keys, and a field argument carries `table`
and `column` keys.  (The grammar module `cmi_pb_grammar` is not part of the
sources; the node shapes are those consumed by `compile_condition` and, for
 fields, modelled from the spec.) -/
inductive CondArg where
  | strArg (value : String)
  | regexArg (pattern : String) (flags : List String)
  | fieldArg (table column : String)
deriving DecidableEq

/-- A parsed condition expression: a bare label, a `table.column` field, or
a function application `name(arg, ...)`. -/
inductive CondExpr where
  | label (value : String)
  | field (table column : String)
  | func (name : String) (args : List CondArg)
deriving DecidableEq

/-- Errors observable from `compile_condition`: the `ConfigError` the code
raises deliberately, and `runtimeError` for the uncaught KeyError/IndexError
a malformed parse node would raise. -/
inductive PyErr where
  | configError (msg : String)
  | runtimeError
deriving DecidableEq

/-- The JSON object stored in a `_meta` column: the cell dict at
serialization time.  `value = none` models the `value` key having been
popped before `json.dumps`. -/
structure MetaCell where
  value : Option String
  valid : Bool
  messages : List Msg
  nulltype : Option String
deriving DecidableEq

/-- What an INSERT stores for one cell: the typed column's value (`none` is
SQL NULL) and the `_meta` column (`none` is SQL NULL). -/
structure StoredCell where
  value : Option String
  meta : Option MetaCell
deriving DecidableEq

/-- A row of the `datatype` table after loading: `name` is the row's
`datatype` key, and `parsedCondition` / `compiledCondition` are the two
results of `compile_condition` (absent when the condition is None, "null"
or "not null"). -/
structure Datatype where
  name : String
  parent : Option String := none
  condition : Option String := none
  sqlType : Option String := none
  description : String := ""
  parsedCondition : Option CondExpr := none
  compiledCondition : Option (String → Bool) := none

/-- The part of a `column`-table row the validators read. -/
structure Column where
  nulltype : Option String := none
  datatype : String

/-- A row of the `rule` table after loading, with its two compiled
conditions (absent exactly when the condition is the literal "null" or
"not null"). -/
structure Rule where
  whenColumn : String
  whenCondition : String
  thenColumn : String
  thenCondition : String
  level : String
  description : String
  compiledWhen : Option (String → Bool) := none
  compiledThen : Option (String → Bool) := none

/-- A foreign-key constraint `{column, ftable, fcolumn}`. -/
structure FKey where
  column : String
  ftable : String
  fcolumn : String
deriving DecidableEq

/-- A tree constraint `{child, parent}`. -/
structure TKey where
  child : String
  parent : String
deriving DecidableEq

/-- An under constraint `{column, ttable, tcolumn, value}`. -/
structure UKey where
  column : String
  ttable : String
  tcolumn : String
  value : String
deriving DecidableEq

/-- The per-table constraint registry built by `create_table`. -/
structure Constraints where
  primary : List String := []
  unique : List String := []
  foreign : List FKey := []
  tree : List TKey := []
  under : List UKey := []
deriving DecidableEq

/-- The configuration map built by `read_config_files` / `configure_db`,
restricted to the keys the validators and the loader read.  `datatypes` is
the `config["datatype"]` dict as an association list; `column t c` is
`config["table"][t]["column"][c]` (`none` models a key the loader
guarantees present); `rules t c` is `config["rule"][t][c]` with `[]` for
the absent-key cases the code guards with `.get`; `constraints t` is the
five constraint dicts at key `t`. -/
structure Config where
  datatypes : List (String × Datatype) := []
  column : String → String → Option Column := fun _ _ => none
  rules : String → String → List Rule := fun _ _ => []
  constraints : String → Constraints := fun _ => {}

/-- Lookup in `config["datatype"]`. -/
def Config.datatype (cfg : Config) (n : String) : Option Datatype :=
  (cfg.datatypes.find? (fun p => p.1 == n)).map (fun p => p.2)

/-- A data row during validation: `cells` is the dict from column names to
cell records (total on the table's columns), and `rowNumber` models the
`row_number` key, which `make_inserts` adds (`none` = key absent). -/
structure VRow where
  rowNumber : Option Nat := none
  cells : String → Cell

/-- A raw input row from the TSV reader: column name to string value. -/
def RawRow : Type := String → String

/-- The loader's fixed chunk size. -/
def CHUNK_SIZE : Nat := 300

/-! ### The condition compiler (`read_config_files.compile_condition`) -/
/-- Models the quote-stripping re.sub call: if the string both starts and
ends with a single or double quote (and has length at least two), strip
those two characters; otherwise return it unchanged. -/
def stripQuotes (s : String) : String :=
  let quotes : List Char := [Char.ofNat 39, Char.ofNat 34]
  if 2 ≤ s.length && quotes.contains s.front && quotes.contains s.back then
    (s.drop 1).dropRight 1
  else s

/-- Reading `arg["value"]`, the the `value` key of an argument node; on any
other node shape Python raises an uncaught KeyError. -/
def argValue : CondArg → Except PyErr String
  | .strArg v => .ok v
  | _ => .error .runtimeError

/-- Reading `arg["pattern"]` and `arg["flags"]`, the the regex keys of an argument
node; on any other node shape Python raises an uncaught KeyError. -/
def argRegex : CondArg → Except PyErr (String × List String)
  | .regexArg p fs => .ok (p, fs)
  | _ => .error .runtimeError

/-- The condition compiler `read_config_files.compile_condition` (load.py lines 67-118).

`knownDT` is the `config["datatype"]` dict at the time of the call;
`reFull pat flags` and `reSearch pat flags` are the verdicts of the
compiled regex's `fullmatch` and `search` (the `re` module is external);
`parseFn` is `config["parser"].parse` (the grammar module is not under the
sources; per the spec an expression parses to a label, a field, or a
function with a list of arguments). -/
def compileCondition (knownDT : String → Option Datatype)
    (reFull reSearch : String → List String → String → Bool)
    (parseFn : String → List CondExpr) (condition : Option String) :
    Except PyErr (Option CondExpr × Option (String → Bool)) :=
  if [none, some "null", some "not null"].contains condition then
    .ok (none, none)
  else
    match condition with
    | none => .ok (none, none)
    | some condStr =>
      match parseFn condStr with
      | [parsed] =>
        match parsed with
        | .func nm args =>
          if nm == "equals" then
            match args with
            | [] => .error .runtimeError
            | a :: _ =>
              match argValue a with
              | .error e => .error e
              | .ok v =>
                let expected := stripQuotes v
                .ok (some parsed, some (fun x => x == expected))
          else if nm == "exclude" || nm == "match" || nm == "search" then
            match args with
            | [] => .error .runtimeError
            | a :: _ =>
              match argRegex a with
              | .error e => .error e
              | .ok (pat, flags) =>
                let pat := stripQuotes pat
                if nm == "exclude" then
                  .ok (some parsed, some (fun x => !(reSearch pat flags x)))
                else if nm == "match" then
                  .ok (some parsed, some (fun x => reFull pat flags x))
                else
                  .ok (some parsed, some (fun x => reSearch pat flags x))
          else if nm == "in" then
            match args.mapM argValue with
            | .error e => .error e
            | .ok vs =>
              let alternatives := vs.map stripQuotes
              .ok (some parsed, some (fun x => alternatives.contains x))
          else
            -- a function node never reaches the datatype-reuse branch
            .error (.configError ("Unrecognized condition: " ++ condStr))
        | .label v =>
          match knownDT v with
          | some dt => .ok (dt.parsedCondition, dt.compiledCondition)
          | none => .error (.configError ("Unrecognized condition: " ++ condStr))
        | .field _ _ =>
          -- `parsed_condition["value"]` raises KeyError on a field node
          .error .runtimeError
      | _ =>
        .error (.configError ("Condition: " ++ condStr ++
          " is invalid. Only one condition per column is allowed."))

/-- Whether a compiler result is a raised `ConfigError`. -/
def isConfigErr {α : Type} : Except PyErr α → Bool
  | .error (.configError _) => true
  | _ => false

/-! ### Intra-row validators (validate.py) -/
/-- A fresh cell record `{value, valid: True, messages: []}` as built at the
top of `validate_rows_intra` for each input value. -/
def freshCell (v : String) : Cell :=
  { value := v, valid := true, messages := [], nulltype := none }

/-- Function `validate_cell_nulltype` (validate.py lines 189-202): if the column has
a nulltype whose compiled predicate accepts the cell's value, record the
nulltype name on the cell.  The `none` fallbacks model lookups the config
loader guarantees to succeed (and a nulltype datatype without a compiled
condition, on which Python would fail before reaching any of the behaviour
the claims are about). -/
def validate_cell_nulltype (cfg : Config) (tbl col : String) (cell : Cell) : Cell :=
  match cfg.column tbl col with
  | none => cell
  | some column =>
    match column.nulltype with
    | none => cell
    | some ntName =>
      match cfg.datatype ntName with
      | none => cell
      | some ntDT =>
        match ntDT.compiledCondition with
        | none => cell
        | some f => if f cell.value then { cell with nulltype := some ntName } else cell

/-- Helper `check_condition` inside `validate_cell_rules`: the literals "null" and
"not null" test the presence of a nulltype on the cell; any other condition
applies the compiled predicate to the cell's value.  (`none` for the
compiled predicate cannot occur for a non-literal condition.) -/
def checkCondition (condition : String) (compiled : Option (String → Bool)) (cell : Cell) : Bool :=
  if condition == "null" then cell.nulltype.isSome
  else if condition == "not null" then cell.nulltype.isNone
  else
    match compiled with
    | some f => f cell.value
    | none => false

/-- The body of the rule loop in `validate_cell_rules`, with `n` the
1-based rule number from `enumerate(applicable_rules, start=1)`. -/
def applyRules (col : String) (context : String → Cell) : Nat → List Rule → Cell → Cell
  | _, [], cell => cell
  | n, r :: rs, cell =>
    let cell :=
      if checkCondition r.whenCondition r.compiledWhen cell then
        if checkCondition r.thenCondition r.compiledThen (context r.thenColumn) then cell
        else
          { cell with
            valid := false
            messages := cell.messages ++
              [{ rule := "rule:" ++ col ++ "-" ++ toString n, level := r.level,
                 message := r.description }] }
      else cell
    applyRules col context (n + 1) rs cell

/-- Function `validate_cell_rules` (validate.py lines 351-386). -/
def validate_cell_rules (cfg : Config) (tbl col : String) (context : String → Cell)
    (cell : Cell) : Cell :=
  applyRules col context 1 (cfg.rules tbl col) cell

/-- The message `datatype:<name> / <col> should be <description>` appended
by `validate_cell_datatype`. -/
def dtMsg (col : String) (dt : Datatype) : Msg :=
  { rule := "datatype:" ++ dt.name, level := "error",
    message := col ++ " should be " ++ dt.description }

/-- Helper `get_datatypes_to_check` inside `validate_cell_datatype`: walk the
parent chain collecting every datatype other than the primary one that has
a compiled condition.  The fuel bounds the walk; with fuel larger than the
number of datatypes it covers any acyclic parent graph (the config
invariant; on a cyclic graph Python would not terminate). -/
def getDatatypesToCheck (cfg : Config) (primaryName : String) :
    Nat → Option String → List Datatype
  | 0, _ => []
  | _, none => []
  | fuel + 1, some dtName =>
    match cfg.datatype dtName with
    | none => []
    | some dt =>
      (if dt.name != primaryName && dt.compiledCondition.isSome then [dt] else []) ++
        getDatatypesToCheck cfg primaryName fuel dt.parent

/-- Function `validate_cell_datatype` (validate.py lines 301-348): if the column's
primary datatype has a compiled condition that rejects the value, mark the
cell invalid, append a message for every ancestor datatype that also
rejects the value (most general first, per the `while`/`pop()` loop), and
finally a message for the primary datatype itself when it has a non-empty
description.  The `none` fallbacks model lookups the config loader
guarantees to succeed. -/
def validate_cell_datatype (cfg : Config) (tbl col : String) (cell : Cell) : Cell :=
  match cfg.column tbl col with
  | none => cell
  | some column =>
    match cfg.datatype column.datatype with
    | none => cell
    | some primaryDT =>
      match primaryDT.compiledCondition with
      | none => cell
      | some f =>
        if f cell.value then cell
        else
          let cell := { cell with valid := false }
          let parents :=
            getDatatypesToCheck cfg primaryDT.name (cfg.datatypes.length + 1)
              (some column.datatype)
          let cell := parents.reverse.foldl (fun cell dt =>
            match dt.compiledCondition with
            | some g =>
              if g cell.value then cell
              else { cell with messages := cell.messages ++ [dtMsg col dt] }
            | none => cell) cell
          if primaryDT.description != "" then
            { cell with messages := cell.messages ++ [dtMsg col primaryDT] }
          else cell

/-- The per-row body of `validate_rows_intra` (validate.py lines 119-141):
first every cell gets its nulltype check, then rules run on every cell and
the datatype check runs on the cells that did not receive a nulltype.
Python mutates `result_row` in place while iterating; since the rules pass
reads only `value` and `nulltype` of context cells and neither pass changes
those fields, the pointwise form below is equivalent. -/
def intraRow (cfg : Config) (tbl : String) (raw : RawRow) : String → Cell :=
  let pass1 : String → Cell := fun c => validate_cell_nulltype cfg tbl c (freshCell (raw c))
  fun c =>
    let cell := validate_cell_rules cfg tbl c pass1 (pass1 c)
    if cell.nulltype = none then validate_cell_datatype cfg tbl c cell else cell

/-- Function `validate_rows_intra` (validate.py lines 112-143).  The `results`
dictionary and the chunk number only key the return value for the
multiprocessing scheduler and are dropped here. -/
def validate_rows_intra (cfg : Config) (tbl : String) (rows : List RawRow) : List VRow :=
  rows.map (fun r => { rowNumber := none, cells := intraRow cfg tbl r })

/-! ### Tree validation (Phase B) and the recursive-CTE semantics -/
/-- One step along a `child → parent` edge list. -/
def EdgeStep (edges : List (String × String)) (a b : String) : Prop := (a, b) ∈ edges

/-- Vertex `b` is an ancestor of `a`: `a` reaches `b` in one or more steps of the
transitive closure of the `child → parent` edges. -/
def Reaches (edges : List (String × String)) (a b : String) : Prop :=
  Relation.TransGen (EdgeStep edges) a b

/-- Parents reachable from `root` in between 1 and `fuel` steps along the
edge list.  With `fuel = edges.length + 1` this is exactly the set of
strict ancestors of `root` (theorem `reaches_iff_mem_reachParents`), which
is what the recursive CTE built by `with_tree_sql` enumerates. -/
def reachParents (edges : List (String × String)) : Nat → String → List String
  | 0, _ => []
  | n + 1, root =>
    let direct := (edges.filter (fun e => e.1 == root)).map (fun e => e.2)
    direct ++ direct.flatMap (fun c => reachParents edges n c)

/-- The edge list over which `validate_cell_trees` runs its cycle query:
the rows already persisted in the table (rows whose `child` or `parent`
column stores SQL NULL can neither be selected nor joined by the CTE and
are dropped), unioned with the previously validated rows of the current
chunk whose child and parent cells are both valid (`prev_selects`). -/
def treeCycleEdges (dbRows : List (String → Option String)) (prev : List VRow)
    (childCol parentCol : String) : List (String × String) :=
  dbRows.filterMap (fun r =>
    match r childCol, r parentCol with
    | some c, some p => some (c, p)
    | _, _ => none) ++
  prev.filterMap (fun p =>
    if (p.cells childCol).valid && (p.cells parentCol).valid then
      some ((p.cells childCol).value, (p.cells parentCol).value)
    else none)

/-- The `tree:cycle` message.  The Python message interpolates a full trace
of the offending cycle; the trace text is elided here (no claim depends on
it). -/
def treeCycleMsg (childCol parentCol : String) : Msg :=
  { rule := "tree:cycle", level := "error",
    message := "Cyclic dependency for tree(" ++ parentCol ++ ") of " ++ childCol }

/-- Function `validate_cell_trees` (validate.py lines 235-298): for every tree whose
parent column is this column, collect the ancestors of the to-be-inserted
parent value over the persisted-plus-pending edge list (the recursive CTE
of `with_tree_sql`); if the to-be-inserted child value is among them the
insertion would close a cycle, and the cell is marked invalid with
`tree:cycle`. -/
def validate_cell_trees (cfg : Config) (tbl : String)
    (dbRows : List (String → Option String)) (col : String) (cell : Cell)
    (context : String → Cell) (prev : List VRow) : Cell :=
  let tkeys := (cfg.constraints tbl).tree.filter (fun tk => tk.parent == col)
  tkeys.foldl (fun cell tk =>
    let childVal := (context tk.child).value
    let parentVal := cell.value
    let edges := treeCycleEdges dbRows prev tk.child col
    if (reachParents edges (edges.length + 1) parentVal).contains childVal then
      { cell with
        valid := false
        messages := cell.messages ++ [treeCycleMsg tk.child col] }
    else cell) cell

/-- The per-row body of `validate_rows_trees`: cells that received a
nulltype are skipped. -/
def validate_row_trees (cfg : Config) (tbl : String)
    (dbRows : List (String → Option String)) (row : VRow) (prev : List VRow) : VRow :=
  { row with
    cells := fun c =>
      let cell := row.cells c
      if cell.nulltype = none then
        validate_cell_trees cfg tbl dbRows c cell row.cells prev
      else cell }

/-- Function `validate_rows_trees` (validate.py lines 146-159): rows are processed
in order, each seeing the already-validated rows of the chunk as
`prev_results`. -/
def validate_rows_trees (cfg : Config) (tbl : String)
    (dbRows : List (String → Option String)) (rows : List VRow) : List VRow :=
  rows.foldl (fun acc row => acc ++ [validate_row_trees cfg tbl dbRows row acc]) []

/-! ### Inter-row constraint validation (Phase C fallback) -/
/-- Function `validate_cell_foreign_constraints` (validate.py lines 205-232).
`foreignExists ftable fcolumn v` is the verdict of
`SELECT 1 FROM ftable WHERE fcolumn = v LIMIT 1` (a lookup in a previously
loaded table, external to the chunk being validated). -/
def validate_cell_foreign_constraints (cfg : Config)
    (foreignExists : String → String → String → Bool) (tbl col : String)
    (cell : Cell) : Cell :=
  let fkeys := (cfg.constraints tbl).foreign.filter (fun fk => fk.column == col)
  fkeys.foldl (fun cell fk =>
    if foreignExists fk.ftable fk.fcolumn cell.value then cell
    else
      { cell with
        valid := false
        messages := cell.messages ++
          [{ rule := "key:foreign", level := "error",
             message := "Value " ++ cell.value ++ " of column " ++ col ++
               " is not in " ++ fk.ftable ++ "." ++ fk.fcolumn }] }) cell

/-- The rows the uniqueness query of `validate_unique_constraints` runs
against.  For an existing row the `WITH` clause keeps the rows whose
`row_number` differs from the given one; when the given row number is SQL
NULL, `row_number <> NULL` holds of no row at all. -/
def uniqueQueryTable (dbTable : List (Nat × (String → Option String)))
    (existingRow : Bool) (rowNumber : Option Nat) :
    List (Nat × (String → Option String)) :=
  if existingRow then
    match rowNumber with
    | some n => dbTable.filter (fun e => e.1 != n)
    | none => []
  else dbTable

/-- The `make_error` message of `validate_unique_constraints`. -/
def uniqMsg (col rule : String) : Msg :=
  { rule := rule, level := "error", message := "Values of " ++ col ++ " must be unique" }

/-- Function `validate_unique_constraints` (validate.py lines 389-445).  `dbTable`
holds the already-persisted rows of the table as `(row_number, typed
values)`; `prev` is `prev_results`, the rows of the chunk validated before
this one.  (`context` is a parameter of the Python function as well, and is
unused there too.) -/
def validate_unique_constraints (cfg : Config) (tbl col : String) (cell : Cell)
    (_context : String → Cell) (prev : List VRow)
    (dbTable : List (Nat × (String → Option String)))
    (existingRow : Bool) (rowNumber : Option Nat) : Cell :=
  let cons := cfg.constraints tbl
  let isPrimary := cons.primary.contains col
  let isUnique := if isPrimary then false else cons.unique.contains col
  let isTreeChild := (cons.tree.map (fun tk => tk.child)).contains col
  if isPrimary || isUnique || isTreeChild then
    let prevDup := prev.any (fun p =>
      (p.cells col).value == cell.value && (p.cells col).valid)
    let dbDup := (uniqueQueryTable dbTable existingRow rowNumber).any (fun e =>
      e.2 col == some cell.value)
    if prevDup || dbDup then
      let cell := { cell with valid := false }
      let cell :=
        if isPrimary || isUnique then
          { cell with messages := cell.messages ++
              [uniqMsg col (if isPrimary then "key:primary" else "key:unique")] }
        else cell
      if isTreeChild then
        { cell with messages := cell.messages ++ [uniqMsg col "tree:child-unique"] }
      else cell
    else cell
  else cell

/-- The per-row body of `validate_rows_constraints`: cells that received a
nulltype are skipped; the others get the foreign check and then the
uniqueness check with `existing_row=False, row_number=None`. -/
def validate_row_constraints (cfg : Config) (tbl : String)
    (foreignExists : String → String → String → Bool)
    (dbTable : List (Nat × (String → Option String)))
    (row : VRow) (prev : List VRow) : VRow :=
  { row with
    cells := fun c =>
      let cell := row.cells c
      if cell.nulltype = none then
        validate_unique_constraints cfg tbl c
          (validate_cell_foreign_constraints cfg foreignExists tbl c cell)
          row.cells prev dbTable false none
      else cell }

/-- Function `validate_rows_constraints` (validate.py lines 162-186). -/
def validate_rows_constraints (cfg : Config) (tbl : String)
    (foreignExists : String → String → String → Bool)
    (dbTable : List (Nat × (String → Option String)))
    (rows : List VRow) : List VRow :=
  rows.foldl (fun acc row =>
    acc ++ [validate_row_constraints cfg tbl foreignExists dbTable row acc]) []

/-- Function `validate_row` (validate.py lines 10-51), the validator behind
`insert_new_row` and `update_row`: the nulltype pass over every cell, then
per cell the rule checks and - when no nulltype was assigned - the
datatype, tree, foreign and uniqueness checks (with empty `prev_results`
and the given `existing_row`/`row_number`).  `result_row` is the row after
the initial normalization: for a new row (`existing_row=False`) the
caller's values wrapped as fresh cells, for an existing row the caller's
cell dicts unchanged (the repository's caller, `validate_table_row` in
run.py, builds them fresh from the submitted values in both cases).  As in
`validate_rows_intra`, the in-place context mutation of the Python loop is
equivalent to this pointwise form because the later validators read only
the `value` and `nulltype` of context cells, which the second pass never
changes. -/
def validate_row (cfg : Config) (tbl : String)
    (foreignExists : String → String → String → Bool)
    (dbRows : List (String → Option String))
    (dbTable : List (Nat × (String → Option String)))
    (result_row : String → Cell) (existingRow : Bool) (rowNumber : Option Nat) :
    String → Cell :=
  let pass1 : String → Cell := fun c => validate_cell_nulltype cfg tbl c (result_row c)
  fun c =>
    let cell := validate_cell_rules cfg tbl c pass1 (pass1 c)
    if cell.nulltype = none then
      validate_unique_constraints cfg tbl c
        (validate_cell_foreign_constraints cfg foreignExists tbl c
          (validate_cell_trees cfg tbl dbRows c
            (validate_cell_datatype cfg tbl c cell) pass1 []))
        pass1 [] dbTable existingRow rowNumber
    else cell

/-! ### Persistence (`make_inserts` and the chunk pipeline of load.py) -/
/-- The per-cell serialization shared by `make_inserts.generate_sql`
(load.py lines 690-726), `update_row` and `insert_new_row`: the typed
column stores NULL for nulltyped and invalid cells; the `value` key is
popped from the cell exactly when the cell is valid and has no nulltype;
the `_meta` column is NULL exactly when the cell is valid and carries no
key beyond `value`, `valid`, `messages` (that is, no nulltype), and
otherwise stores the JSON dump of the remaining cell dict. -/
def storeCell (cell : Cell) : StoredCell :=
  let value : Option String :=
    if cell.nulltype.isSome then none
    else if cell.valid then some cell.value
    else none
  let metaValue : Option String :=
    if cell.nulltype.isNone && cell.valid then none else some cell.value
  let meta : Option MetaCell :=
    if cell.valid && cell.nulltype.isNone then none
    else some { value := metaValue, valid := cell.valid,
                messages := cell.messages, nulltype := cell.nulltype }
  { value := value, meta := meta }

/-- Helper `has_conflict` inside `make_inserts`: the row goes to the conflict
table iff one of its cells in a conflict column is invalid.  (Python
iterates the row's keys and tests membership in `conflict_columns`; since
every conflict column is a column of the row, iterating the conflict
columns is the same intersection.) -/
def has_conflict (conflictCols : List String) (cells : String → Cell) : Bool :=
  conflictCols.any (fun c => !(cells c).valid)

/-- The numbering loop of `make_inserts` (load.py lines 742-743):
`row["row_number"] = i + chunk_number * CHUNK_SIZE` with `i` the 1-based
position of the row in the chunk. -/
def numberRows (rows : List VRow) (chunkNumber : Nat) : List VRow :=
  rows.enum.map (fun p =>
    { p.2 with rowNumber := some (p.1 + 1 + chunkNumber * CHUNK_SIZE) })

/-- Function `make_inserts` (load.py lines 685-751): number the rows, then split
them into the main-table and conflict-table INSERT contents.  The SQL text
itself is elided; the pair returned holds exactly the rows each of the two
INSERT statements would write. -/
def make_inserts (cfg : Config) (tbl : String) (rows : List VRow)
    (chunkNumber : Nat) : List VRow × List VRow :=
  let cons := cfg.constraints tbl
  let conflictCols :=
    cons.primary ++ cons.unique ++ cons.tree.map (fun tk => tk.child)
  let numbered := numberRows rows chunkNumber
  (numbered.filter (fun r => !(has_conflict conflictCols r.cells)),
   numbered.filter (fun r => has_conflict conflictCols r.cells))

/-- The database state for one table during loading: the rows of `T`, the
rows of `T_conflict`, and the number of `commit()` calls issued. -/
structure DBState where
  main : List (Nat × (String → StoredCell)) := []
  conflict : List (Nat × (String → StoredCell)) := []
  commits : Nat := 0

/-- The typed values of the persisted main-table rows (what
`SELECT child, parent FROM t` sees). -/
def DBState.mainValues (db : DBState) : List (String → Option String) :=
  db.main.map (fun e => fun c => (e.2 c).value)

/-- The persisted main-table rows keyed by row number (what the uniqueness
query sees). -/
def DBState.mainKeyed (db : DBState) : List (Nat × (String → Option String)) :=
  db.main.map (fun e => (e.1, fun c => (e.2 c).value))

/-- What executing one INSERT row writes: the row number (always assigned
by `make_inserts` before `generate_sql` reads it) and the serialized
cells. -/
def storeRow (r : VRow) : Nat × (String → StoredCell) :=
  (r.rowNumber.getD 0, fun c => storeCell (r.cells c))

/-- Function `validate_and_insert_chunks.validate_rows_inter_and_insert` (load.py
lines 370-387): run tree validation, build both INSERTs, and attempt the
main one.  `mainInsertRaises db rows` is the external SQLite verdict on the
main INSERT (True iff it raises `IntegrityError`).  On failure, re-validate
the *intra*-validated rows against the explicit constraints, rebuild both
INSERTs, execute both, and commit.  On success only the main INSERT's
effect persists: the conflict INSERT is never executed and no commit is
issued on that path. -/
def validate_rows_inter_and_insert (cfg : Config) (tbl : String)
    (foreignExists : String → String → String → Bool)
    (mainInsertRaises : DBState → List VRow → Bool)
    (db : DBState) (intraRows : List VRow) (chunkNum : Nat) : DBState :=
  let validated := validate_rows_trees cfg tbl db.mainValues intraRows
  let inserts := make_inserts cfg tbl validated chunkNum
  if mainInsertRaises db inserts.1 then
    let validated2 := validate_rows_constraints cfg tbl foreignExists db.mainKeyed intraRows
    let inserts2 := make_inserts cfg tbl validated2 chunkNum
    { main := db.main ++ inserts2.1.map storeRow
      conflict := db.conflict ++ inserts2.2.map storeRow
      commits := db.commits + 1 }
  else
    { db with main := db.main ++ inserts.1.map storeRow }

/-! ### The dependency resolver (`verify_table_deps_and_sort`, load.py lines 280-363)

`graphlib.TopologicalSorter` is standard-library code; it is modelled here
by its documented contract: `add(node, *predecessors)` records that every
predecessor must come before `node`, `static_order()` returns all mentioned
nodes in such an order, and raises `CycleError` exactly when no such order
exists.  The implementation below emits, at each step, the first remaining
node all of whose predecessors are already emitted. -/
/-- All predecessors recorded for a node across the `add` calls. -/
def predsOf (pairs : List (String × List String)) (n : String) : List String :=
  (pairs.filter (fun p => p.1 == n)).flatMap (fun p => p.2)

/-- Every node mentioned by the `add` calls, as target or as predecessor. -/
def topoNodes (pairs : List (String × List String)) : List String :=
  (pairs.map (fun p => p.1) ++ pairs.flatMap (fun p => p.2)).dedup

/-- One emission loop of the topological sorter; `none` is `CycleError`. -/
def topoLoop (pairs : List (String × List String)) :
    Nat → List String → List String → Option (List String)
  | 0, done, remaining => if remaining.isEmpty then some done else none
  | fuel + 1, done, remaining =>
    if remaining.isEmpty then some done
    else
      match remaining.find? (fun n => (predsOf pairs n).all (fun p => done.contains p)) with
      | none => none
      | some n => topoLoop pairs fuel (done ++ [n]) (remaining.erase n)

/-- Models `TopologicalSorter.static_order()`. -/
def topoStaticOrder (pairs : List (String × List String)) : Option (List String) :=
  topoLoop pairs (topoNodes pairs).length [] (topoNodes pairs)

/-- The errors of `verify_table_deps_and_sort` (the human-readable cycle
and column descriptions in the raised messages are elided). -/
inductive SortErr where
  | cycleErr
  | configErr
deriving DecidableEq

/-- The under-constraint pass of `verify_table_deps_and_sort`: each under
key pointing at another table must refer to an existing tree there
(`ConfigError` otherwise) and adds a dependency on that table. -/
def underDepsFor (cons : String → Constraints) (t : String) :
    Except SortErr (List String) :=
  (cons t).under.foldlM (fun acc u =>
    if u.ttable != t then
      if ((cons u.ttable).tree.filter (fun tk => tk.child == u.tcolumn)).isEmpty then
        .error .configErr
      else .ok (acc ++ [u.ttable])
    else .ok acc) []

/-- The `ts.add(table_name, *deps)` calls of the cross-table pass: each
table with its foreign-table dependencies and its qualifying under-table
dependencies. -/
def tablePairs (tableList : List String) (cons : String → Constraints) :
    Except SortErr (List (String × List String)) :=
  tableList.mapM (fun t =>
    (underDepsFor cons t).map (fun uds =>
      (t, (cons t).foreign.map (fun fk => fk.ftable) ++ uds)))

/-- Function `verify_table_deps_and_sort` (load.py lines 280-363): first check each
table's tree edges for cycles, then topologically sort the tables along
foreign and under dependencies. -/
def verify_table_deps_and_sort (tableList : List String)
    (cons : String → Constraints) : Except SortErr (List String) :=
  if tableList.all (fun t =>
      (topoStaticOrder ((cons t).tree.map (fun tk => (tk.child, [tk.parent])))).isSome) then
    match tablePairs tableList cons with
    | .error e => .error e
    | .ok pairs =>
      match topoStaticOrder pairs with
      | some order => .ok order
      | none => .error .cycleErr
  else .error .cycleErr

/-- Element `a` occurs at a strictly earlier position than `b` in `l`. -/
def ListBefore (l : List String) (a b : String) : Prop :=
  ∃ i j, i < j ∧ l.get? i = some a ∧ l.get? j = some b

/-! ### Reachability: the recursive CTE computes the transitive closure -/
/-- Predicate `chainOk edges a l b`: the vertices of `l` link `a` to `b` through
consecutive edges. -/
def chainOk (edges : List (String × String)) : String → List String → String → Prop
  | a, [], b => EdgeStep edges a b
  | a, c :: l, b => EdgeStep edges a c ∧ chainOk edges c l b

/-! ### Topological order respects recorded predecessors -/
/-- Every emitted node's predecessors were emitted at earlier positions. -/
def OrderedOk (pairs : List (String × List String)) (done : List String) : Prop :=
  ∀ j n, done.get? j = some n → ∀ p ∈ predsOf pairs n, ∃ i, i < j ∧ done.get? i = some p

/-! ### The validators never leave a message on a valid cell -/
/-- Invariant of every cell the validators produce: a cell carrying
messages is invalid (each validator that appends a message also sets
`valid` to False, and none ever sets it back to True). -/
def MsgInv (c : Cell) : Prop := c.messages ≠ [] → c.valid = false

def cellC9 : Cell :=
  { value := "x", valid := true, messages := [], nulltype := some "empty" }

def dtPlain : Datatype :=
  { name := "plain", parent := none, condition := none, sqlType := some "text",
    description := "anything", parsedCondition := none, compiledCondition := none }

def cfgC10 : Config :=
  { datatypes := [("plain", dtPlain)]
    column := fun t c =>
      if t == "t" && c == "a" then some { nulltype := none, datatype := "plain" }
      else none
    rules := fun _ _ => []
    constraints := fun _ => {} }

def vrowX : VRow := { rowNumber := none, cells := fun _ => freshCell "x" }

def cfgTriv : Config := {}

def rawX : RawRow := fun _ => "x"

def rowC4 : VRow :=
  validate_row_trees cfgTriv "t" []
    { rowNumber := none, cells := intraRow cfgTriv "t" rawX } []

def dtEmpty : Datatype :=
  { name := "empty", parent := none, condition := none, sqlType := some "text",
    description := "the empty string", parsedCondition := none,
    compiledCondition := some (fun x => x == "") }

def colC5 : Column := { nulltype := some "empty", datatype := "empty" }

def ruleC5 : Rule :=
  { whenColumn := "a", whenCondition := "null", thenColumn := "b",
    thenCondition := "not null", level := "error",
    description := "b required when a is empty" }

def cfgC5 : Config :=
  { datatypes := [("empty", dtEmpty)]
    column := fun t c =>
      if t == "t" && (c == "a" || c == "b") then some colC5 else none
    rules := fun t c => if t == "t" && c == "a" then [ruleC5] else []
    constraints := fun _ => {} }

def rawC5 : RawRow := fun _ => ""

/-- The messages `validate_unique_constraints` appends on a duplicate:
`key:primary` for a primary column, else `key:unique` for a unique column,
plus `tree:child-unique` when the column is a tree child. -/
def c3Msgs (cons : Constraints) (col : String) : List Msg :=
  (if cons.primary.contains col then [uniqMsg col "key:primary"]
   else if cons.unique.contains col then [uniqMsg col "key:unique"]
   else []) ++
  (if (cons.tree.map (fun tk => tk.child)).contains col then
    [uniqMsg col "tree:child-unique"]
   else [])

def cfgC3 : Config :=
  { constraints := fun t => if t == "t" then { primary := ["id"] } else {} }

def cellC3 : Cell := freshCell "v"

def prevRowC3 : VRow := { rowNumber := none, cells := fun _ => freshCell "v" }

def consC6 : String → Constraints := fun t =>
  if t == "a" then { foreign := [{ column := "x", ftable := "b", fcolumn := "y" }] }
  else {}

/-- The edge list the claim describes: the persisted rows unioned with all
previously validated rows of the current chunk, with no validity filter on
the latter (this is where the claim and the code diverge). -/
def claimTreeEdges (dbRows : List (String → Option String)) (prev : List VRow)
    (childCol parentCol : String) : List (String × String) :=
  dbRows.filterMap (fun r =>
    match r childCol, r parentCol with
    | some c, some p => some (c, p)
    | _, _ => none) ++
  prev.map (fun p => ((p.cells childCol).value, (p.cells parentCol).value))

def cfgC7 : Config :=
  { constraints := fun t =>
      if t == "t" then { tree := [{ child := "c", parent := "p" }] } else {} }

def prevRowC7 : VRow :=
  { rowNumber := none,
    cells := fun c =>
      if c == "c" then { value := "b", valid := false, messages := [], nulltype := none }
      else { value := "a", valid := true, messages := [], nulltype := none } }

def ctxC7 : String → Cell := fun c => if c == "c" then freshCell "a" else freshCell "b"

def prevRowC7v : VRow :=
  { rowNumber := none,
    cells := fun c => if c == "c" then freshCell "b" else freshCell "a" }

def parseC8 : String → List CondExpr :=
  fun _ => [CondExpr.func "equals" [CondArg.strArg "\"a\"", CondArg.strArg "\"b\""]]

def dtWordish : Datatype :=
  { name := "wordish", parent := none, condition := none, sqlType := some "text",
    description := "an ok value", parsedCondition := none,
    compiledCondition := some (fun x => x == "ok") }

def cfgC1 : Config :=
  { datatypes := [("wordish", dtWordish)]
    column := fun t c =>
      if t == "t" && c == "id" then some { nulltype := none, datatype := "wordish" }
      else none
    rules := fun _ _ => []
    constraints := fun t => if t == "t" then { primary := ["id"] } else {} }

def rawOk : RawRow := fun _ => "ok"

def rawBad : RawRow := fun _ => "bad"

/-! ### Theorems -/

theorem chainOk_append {edges : List (String × String)} :
    ∀ (l₁ : List String) (x : String) (l₂ : List String) (a b : String),
      chainOk edges a (l₁ ++ x :: l₂) b ↔ chainOk edges a l₁ x ∧ chainOk edges x l₂ b
  | [], x, l₂, a, b => Iff.rfl
  | c :: t, x, l₂, a, b => by
    have ih := @chainOk_append edges t x l₂ c b
    simp only [List.cons_append, chainOk, List.append_eq]
    rw [ih, and_assoc]

theorem reaches_of_chain {edges : List (String × String)} :
    ∀ (l : List String) (a b : String), chainOk edges a l b → Reaches edges a b
  | [], a, b, h => Relation.TransGen.single h
  | c :: t, a, b, h =>
    Relation.TransGen.head h.1 (reaches_of_chain t c b h.2)

theorem chain_of_reaches {edges : List (String × String)} {a b : String}
    (h : Reaches edges a b) : ∃ l, chainOk edges a l b := by
  induction h with
  | single h => exact ⟨[], h⟩
  | tail _ hstep ih =>
    obtain ⟨l, hl⟩ := ih
    exact ⟨l ++ [_], (chainOk_append l _ [] a _).mpr ⟨hl, hstep⟩⟩

/-- A list that is not `Nodup` contains the same element at two positions. -/
theorem exists_dup_split {α : Type} [DecidableEq α] :
    ∀ (l : List α), ¬l.Nodup → ∃ x l₁ l₂ l₃, l = l₁ ++ x :: (l₂ ++ x :: l₃)
  | [], h => absurd List.nodup_nil h
  | y :: t, h => by
    by_cases hy : y ∈ t
    · obtain ⟨s, u, rfl⟩ := List.append_of_mem hy
      exact ⟨y, [], s, u, rfl⟩
    · have ht : ¬t.Nodup := fun hn => h (List.nodup_cons.mpr ⟨hy, hn⟩)
      obtain ⟨x, l₁, l₂, l₃, rfl⟩ := exists_dup_split t ht
      exact ⟨x, y :: l₁, l₂, l₃, rfl⟩

/-- Any chain can be shortened to one without repeated vertices. -/
theorem chain_shorten {edges : List (String × String)} :
    ∀ (n : Nat) (l : List String) (a b : String), l.length ≤ n →
      chainOk edges a l b →
      ∃ l', l'.Nodup ∧ (∀ x ∈ l', x ∈ l) ∧ chainOk edges a l' b := by
  intro n
  induction n with
  | zero =>
    intro l a b hlen h
    have : l = [] := List.length_eq_zero.mp (Nat.le_zero.mp hlen)
    subst this
    exact ⟨[], List.nodup_nil, by simp, h⟩
  | succ n ih =>
    intro l a b hlen h
    by_cases hnd : l.Nodup
    · exact ⟨l, hnd, fun x hx => hx, h⟩
    · obtain ⟨x, l₁, l₂, l₃, rfl⟩ := exists_dup_split l hnd
      have h1 : chainOk edges a l₁ x ∧ chainOk edges x (l₂ ++ x :: l₃) b :=
        (chainOk_append l₁ x (l₂ ++ x :: l₃) a b).mp h
      have h2 : chainOk edges x l₂ x ∧ chainOk edges x l₃ b :=
        (chainOk_append l₂ x l₃ x b).mp h1.2
      have h3 : chainOk edges a (l₁ ++ x :: l₃) b :=
        (chainOk_append l₁ x l₃ a b).mpr ⟨h1.1, h2.2⟩
      have hlen' : (l₁ ++ x :: l₃).length ≤ n := by
        simp only [List.length_append, List.length_cons] at hlen ⊢
        omega
      obtain ⟨l', hnd', hsub, hch⟩ := ih (l₁ ++ x :: l₃) a b hlen' h3
      refine ⟨l', hnd', fun y hy => ?_, hch⟩
      have := hsub y hy
      simp only [List.mem_append, List.mem_cons] at this ⊢
      tauto

/-- Every vertex of a chain is the target of an edge. -/
theorem chain_mem_targets {edges : List (String × String)} :
    ∀ (l : List String) (a b : String), chainOk edges a l b →
      ∀ x ∈ l, x ∈ edges.map (fun e => e.2)
  | [], _, _, _ => by simp
  | c :: t, a, b, h => by
    intro x hx
    rcases List.mem_cons.mp hx with rfl | hx
    · exact List.mem_map.mpr ⟨(a, x), h.1, rfl⟩
    · exact chain_mem_targets t c b h.2 x hx

/-- A chain shorter than the fuel lands its endpoint in `reachParents`. -/
theorem chain_to_fuel {edges : List (String × String)} :
    ∀ (n : Nat) (l : List String) (a b : String), chainOk edges a l b →
      l.length < n → b ∈ reachParents edges n a := by
  intro n
  induction n with
  | zero => intro l a b _ h; omega
  | succ n ih =>
    intro l a b h hlen
    match l, h with
    | [], h =>
      simp only [reachParents, List.mem_append]
      exact Or.inl (List.mem_map.mpr ⟨(a, b), List.mem_filter.mpr ⟨h, by simp⟩, rfl⟩)
    | c :: t, h =>
      simp only [reachParents, List.mem_append]
      refine Or.inr (List.mem_flatMap.mpr ⟨c, ?_, ?_⟩)
      · exact List.mem_map.mpr ⟨(a, c), List.mem_filter.mpr ⟨h.1, by simp⟩, rfl⟩
      · exact ih t c b h.2 (by simp at hlen; omega)

/-- Everything `reachParents` finds is a strict ancestor. -/
theorem reach_sound {edges : List (String × String)} :
    ∀ (n : Nat) (a b : String), b ∈ reachParents edges n a → Reaches edges a b := by
  intro n
  induction n with
  | zero => intro a b h; simp [reachParents] at h
  | succ n ih =>
    intro a b h
    simp only [reachParents, List.mem_append] at h
    rcases h with h | h
    · obtain ⟨e, he, rfl⟩ := List.mem_map.mp h
      obtain ⟨hmem, heq⟩ := List.mem_filter.mp he
      have : e.1 = a := by simpa using heq
      exact Relation.TransGen.single (show EdgeStep edges a e.2 by
        rw [← this]; exact hmem)
    · obtain ⟨c, hc, hb⟩ := List.mem_flatMap.mp h
      obtain ⟨e, he, rfl⟩ := List.mem_map.mp hc
      obtain ⟨hmem, heq⟩ := List.mem_filter.mp he
      have : e.1 = a := by simpa using heq
      exact Relation.TransGen.head (show EdgeStep edges a e.2 by rw [← this]; exact hmem)
        (ih e.2 b hb)

/-- The recursive CTE of `with_tree_sql`, run with saturating fuel,
enumerates exactly the strict ancestors in the transitive closure of the
`child → parent` edges. -/
theorem reaches_iff_mem_reachParents {edges : List (String × String)} {a b : String} :
    Reaches edges a b ↔ b ∈ reachParents edges (edges.length + 1) a := by
  constructor
  · intro h
    obtain ⟨l, hl⟩ := chain_of_reaches h
    obtain ⟨l', hnd, hsub, hch⟩ := chain_shorten l.length l a b le_rfl hl
    refine chain_to_fuel (edges.length + 1) l' a b hch ?_
    have hsub' : l' ⊆ edges.map (fun e => e.2) := fun x hx =>
      chain_mem_targets l' a b hch x hx
    have := (List.Nodup.subperm hnd hsub').length_le
    simp only [List.length_map] at this
    omega
  · exact reach_sound (edges.length + 1) a b

theorem topoLoop_mem {pairs : List (String × List String)} :
    ∀ (fuel : Nat) (done rem order : List String),
      topoLoop pairs fuel done rem = some order →
      ∀ x, (x ∈ done ∨ x ∈ rem) → x ∈ order := by
  intro fuel
  induction fuel with
  | zero =>
    intro done rem order h x hx
    simp only [topoLoop] at h
    by_cases hrem : rem.isEmpty
    · rw [if_pos hrem] at h
      cases h
      rcases hx with hx | hx
      · exact hx
      · rw [List.isEmpty_iff.mp hrem] at hx; simp at hx
    · rw [if_neg hrem] at h; cases h
  | succ fuel ih =>
    intro done rem order h x hx
    simp only [topoLoop] at h
    by_cases hrem : rem.isEmpty
    · rw [if_pos hrem] at h
      cases h
      rcases hx with hx | hx
      · exact hx
      · rw [List.isEmpty_iff.mp hrem] at hx; simp at hx
    · rw [if_neg hrem] at h
      cases hfind : rem.find? (fun n => (predsOf pairs n).all (fun p => done.contains p)) with
      | none => rw [hfind] at h; cases h
      | some n =>
        rw [hfind] at h
        refine ih (done ++ [n]) (rem.erase n) order h x ?_
        rcases hx with hx | hx
        · exact Or.inl (List.mem_append.mpr (Or.inl hx))
        · by_cases hxn : x = n
          · exact Or.inl (List.mem_append.mpr (Or.inr (by simp [hxn])))
          · exact Or.inr ((List.mem_erase_of_ne hxn).mpr hx)

theorem topoLoop_ordered {pairs : List (String × List String)} :
    ∀ (fuel : Nat) (done rem order : List String),
      topoLoop pairs fuel done rem = some order →
      OrderedOk pairs done → OrderedOk pairs order := by
  intro fuel
  induction fuel with
  | zero =>
    intro done rem order h hdone
    simp only [topoLoop] at h
    by_cases hrem : rem.isEmpty
    · rw [if_pos hrem] at h; cases h; exact hdone
    · rw [if_neg hrem] at h; cases h
  | succ fuel ih =>
    intro done rem order h hdone
    simp only [topoLoop] at h
    by_cases hrem : rem.isEmpty
    · rw [if_pos hrem] at h; cases h; exact hdone
    · rw [if_neg hrem] at h
      cases hfind : rem.find? (fun n => (predsOf pairs n).all (fun p => done.contains p)) with
      | none => rw [hfind] at h; cases h
      | some n =>
        rw [hfind] at h
        refine ih (done ++ [n]) (rem.erase n) order h ?_
        have hpreds : ∀ p ∈ predsOf pairs n, p ∈ done := by
          have := List.find?_some hfind
          simp only [List.all_eq_true] at this
          intro p hp
          have := this p hp
          simpa using this
        intro j m hj p hp
        rcases Nat.lt_trichotomy j done.length with hlt | heq | hgt
        · rw [List.get?_append hlt] at hj
          obtain ⟨i, hij, hip⟩ := hdone j m hj p hp
          exact ⟨i, hij, by rw [List.get?_append (lt_trans hij hlt)]; exact hip⟩
        · subst heq
          rw [List.get?_concat_length] at hj
          cases hj
          have hpd := hpreds p hp
          obtain ⟨i, hi⟩ := List.get?_of_mem hpd
          have hilt : i < done.length := by
            by_contra hcon
            rw [List.get?_eq_none.mpr (Nat.le_of_not_lt hcon)] at hi
            cases hi
          exact ⟨i, hilt, by rw [List.get?_append hilt]; exact hi⟩
        · exfalso
          have hnone : (done ++ [n]).get? j = none :=
            List.get?_eq_none.mpr (by simp; omega)
          rw [hnone] at hj
          cases hj

/-- Master property of the modelled `static_order`: a successful sort puts
every recorded predecessor strictly before its node. -/
theorem topoStaticOrder_respects {pairs : List (String × List String)}
    {order : List String} (h : topoStaticOrder pairs = some order)
    {n p : String} (hp : p ∈ predsOf pairs n) (hn : n ∈ topoNodes pairs) :
    ListBefore order p n := by
  have hmem : n ∈ order :=
    topoLoop_mem (topoNodes pairs).length [] (topoNodes pairs) order h n (Or.inr hn)
  have hord : OrderedOk pairs order :=
    topoLoop_ordered (topoNodes pairs).length [] (topoNodes pairs) order h
      (fun j m hj => by simp at hj)
  obtain ⟨j, hj⟩ := List.get?_of_mem hmem
  obtain ⟨i, hij, hip⟩ := hord j n hj p hp
  exact ⟨i, j, hij, hip, hj⟩

/-- Unfolding `List.mapM` over `Except`: every input element is mapped to
a successful output element. -/
theorem mapM_ok_mem {α β : Type} {f : α → Except SortErr β} :
    ∀ {l : List α} {res : List β}, l.mapM f = .ok res →
      ∀ a ∈ l, ∃ b, f a = .ok b ∧ b ∈ res := by
  intro l
  induction l with
  | nil => intro res _ a ha; simp at ha
  | cons x t ih =>
    intro res hm a ha
    rw [List.mapM_cons] at hm
    cases hfx : f x with
    | error e => rw [hfx] at hm; simp [Bind.bind, Except.bind] at hm
    | ok b =>
      cases hmt : t.mapM f with
      | error e => rw [hfx, hmt] at hm; simp [Bind.bind, Except.bind] at hm
      | ok bs =>
        rw [hfx, hmt] at hm
        simp only [Bind.bind, Except.bind, pure, Except.pure, Except.ok.injEq] at hm
        rcases List.mem_cons.mp ha with rfl | ha
        · exact ⟨b, hfx, by rw [← hm]; exact List.mem_cons_self _ _⟩
        · obtain ⟨b', h1, h2⟩ := ih hmt a ha
          exact ⟨b', h1, by rw [← hm]; exact List.mem_cons_of_mem _ h2⟩

theorem msgInv_of_valid_false {c : Cell} (h : c.valid = false) : MsgInv c :=
  fun _ => h

theorem msgInv_freshCell (v : String) : MsgInv (freshCell v) := by
  intro h
  simp [freshCell] at h

/-- Function `validate_cell_nulltype` either returns the cell unchanged or only adds
the nulltype key. -/
theorem validate_cell_nulltype_cases (cfg : Config) (tbl col : String) (cell : Cell) :
    validate_cell_nulltype cfg tbl col cell = cell ∨
    ∃ nt, validate_cell_nulltype cfg tbl col cell = { cell with nulltype := some nt } := by
  unfold validate_cell_nulltype
  repeat' split
  all_goals first
    | exact Or.inl rfl
    | exact Or.inr ⟨_, rfl⟩

theorem applyRules_msgInv (col : String) (ctx : String → Cell) :
    ∀ (n : Nat) (rs : List Rule) (cell : Cell), MsgInv cell →
      MsgInv (applyRules col ctx n rs cell) := by
  intro n rs
  induction rs generalizing n with
  | nil => intro cell h; exact h
  | cons r rs ih =>
    intro cell h
    simp only [applyRules]
    split
    · split
      · exact ih (n + 1) cell h
      · exact ih (n + 1) _ (msgInv_of_valid_false rfl)
    · exact ih (n + 1) cell h

/-- The rule pass changes neither a cell's value nor its nulltype. -/
theorem applyRules_value_nulltype (col : String) (ctx : String → Cell) :
    ∀ (n : Nat) (rs : List Rule) (cell : Cell),
      (applyRules col ctx n rs cell).value = cell.value ∧
      (applyRules col ctx n rs cell).nulltype = cell.nulltype := by
  intro n rs
  induction rs generalizing n with
  | nil => intro cell; exact ⟨rfl, rfl⟩
  | cons r rs ih =>
    intro cell
    simp only [applyRules]
    split
    · split
      · exact ih (n + 1) cell
      · exact ih (n + 1) _
    · exact ih (n + 1) cell

/-- The ancestor-message fold of `validate_cell_datatype` never touches the
`valid` field. -/
theorem dtFold_valid (col : String) :
    ∀ (parents : List Datatype) (cell : Cell),
      (parents.foldl (fun cell dt =>
        match dt.compiledCondition with
        | some g =>
          if g cell.value then cell
          else { cell with messages := cell.messages ++ [dtMsg col dt] }
        | none => cell) cell).valid = cell.valid := by
  intro parents
  induction parents with
  | nil => intro cell; rfl
  | cons dt rest ih =>
    intro cell
    simp only [List.foldl]
    rw [ih]
    split
    · split <;> rfl
    · rfl

theorem validate_cell_datatype_msgInv (cfg : Config) (tbl col : String)
    (cell : Cell) (h : MsgInv cell) : MsgInv (validate_cell_datatype cfg tbl col cell) := by
  unfold validate_cell_datatype
  split
  · exact h
  · split
    · exact h
    · split
      · exact h
      · split
        · exact h
        · refine msgInv_of_valid_false ?_
          split
          · dsimp only
            rw [dtFold_valid]
          · rw [dtFold_valid]

theorem validate_cell_trees_msgInv (cfg : Config) (tbl : String)
    (dbRows : List (String → Option String)) (col : String)
    (context : String → Cell) (prev : List VRow) (cell : Cell) (h : MsgInv cell) :
    MsgInv (validate_cell_trees cfg tbl dbRows col cell context prev) := by
  unfold validate_cell_trees
  generalize (cfg.constraints tbl).tree.filter (fun tk => tk.parent == col) = tkeys
  induction tkeys generalizing cell with
  | nil => exact h
  | cons tk rest ih =>
    simp only [List.foldl]
    split
    · exact ih _ (msgInv_of_valid_false rfl)
    · exact ih cell h

/-- Every cell produced by the intra-row phase satisfies the invariant. -/
theorem intraRow_msgInv (cfg : Config) (tbl : String) (raw : RawRow) (c : String) :
    MsgInv (intraRow cfg tbl raw c) := by
  unfold intraRow
  have h1 : MsgInv (validate_cell_nulltype cfg tbl c (freshCell (raw c))) := by
    rcases validate_cell_nulltype_cases cfg tbl c (freshCell (raw c)) with hc | ⟨nt, hc⟩
    · rw [hc]; exact msgInv_freshCell (raw c)
    · rw [hc]
      intro hm
      exact absurd hm (by simp [freshCell])
  have h2 : MsgInv (validate_cell_rules cfg tbl c
      (fun col => validate_cell_nulltype cfg tbl col (freshCell (raw col)))
      (validate_cell_nulltype cfg tbl c (freshCell (raw c)))) :=
    applyRules_msgInv c _ 1 _ _ h1
  dsimp only
  split
  · exact validate_cell_datatype_msgInv cfg tbl c _ h2
  · exact h2

/-- The tree phase preserves the invariant on every cell of every row. -/
theorem validate_rows_trees_msgInv (cfg : Config) (tbl : String)
    (dbRows : List (String → Option String)) :
    ∀ (rows acc : List VRow), (∀ r ∈ acc, ∀ c, MsgInv (r.cells c)) →
      (∀ r ∈ rows, ∀ c, MsgInv (r.cells c)) →
      ∀ r ∈ rows.foldl
        (fun acc row => acc ++ [validate_row_trees cfg tbl dbRows row acc]) acc,
        ∀ c, MsgInv (r.cells c) := by
  intro rows
  induction rows with
  | nil => intro acc hacc _ r hr; exact hacc r hr
  | cons row rest ih =>
    intro acc hacc hrows r hr
    simp only [List.foldl] at hr
    refine ih (acc ++ [validate_row_trees cfg tbl dbRows row acc]) ?_ ?_ r hr
    · intro r' hr' c
      rcases List.mem_append.mp hr' with hr' | hr'
      · exact hacc r' hr' c
      · have hr'' : r' = validate_row_trees cfg tbl dbRows row acc := by simpa using hr'
        subst hr''
        have hrow : MsgInv (row.cells c) := hrows row (List.mem_cons_self _ _) c
        unfold validate_row_trees
        dsimp only
        split
        · exact validate_cell_trees_msgInv cfg tbl dbRows c row.cells acc (row.cells c) hrow
        · exact hrow
    · intro r' hr' c
      exact hrows r' (List.mem_cons_of_mem _ hr') c

/-! ### Claim theorems -/
/-- C9: for every cell that was assigned a nulltype, the typed SQL column
stores NULL while its `_meta` column is non-NULL JSON retaining both the
original string under the `value` key and the nulltype name under the
`nulltype` key. -/
theorem c9_nulltype_meta (cell : Cell) (nt : String) (h : cell.nulltype = some nt) :
    storeCell cell =
      { value := none,
        meta := some { value := some cell.value, valid := cell.valid,
                       messages := cell.messages, nulltype := some nt } } := by
  simp [storeCell, h]

theorem c9_nulltype_meta_witness :
    storeCell cellC9 =
      { value := none,
        meta := some { value := some "x", valid := true, messages := [],
                       nulltype := some "empty" } } :=
  c9_nulltype_meta cellC9 "empty" rfl

/-- C10: for every cell whose column's datatype has no condition, or whose
condition is the literal "null" or "not null", the compiled predicate is
absent and datatype validation returns the cell unchanged. -/
theorem c10_null_condition (knownDT : String → Option Datatype)
    (reFull reSearch : String → List String → String → Bool)
    (parseFn : String → List CondExpr) (c : Option String)
    (hc : c = none ∨ c = some "null" ∨ c = some "not null")
    (cfg : Config) (tbl col : String) (colRec : Column) (dt : Datatype) (cell : Cell)
    (hcol : cfg.column tbl col = some colRec)
    (hdt : cfg.datatype colRec.datatype = some dt)
    (hcc : dt.compiledCondition = none) :
    compileCondition knownDT reFull reSearch parseFn c = .ok (none, none) ∧
    validate_cell_datatype cfg tbl col cell = cell := by
  constructor
  · rcases hc with rfl | rfl | rfl <;> rfl
  · unfold validate_cell_datatype
    rw [hcol]
    dsimp only
    rw [hdt]
    dsimp only
    rw [hcc]

theorem c10_null_condition_witness :
    compileCondition (fun _ => none) (fun _ _ _ => false) (fun _ _ _ => false)
        (fun _ => []) (some "null") = .ok (none, none) ∧
    validate_cell_datatype cfgC10 "t" "a" (freshCell "v") = freshCell "v" :=
  c10_null_condition (fun _ => none) (fun _ _ _ => false) (fun _ _ _ => false)
    (fun _ => []) (some "null") (Or.inr (Or.inl rfl)) cfgC10 "t" "a"
    { nulltype := none, datatype := "plain" } dtPlain (freshCell "v")
    rfl rfl rfl

/-- The tree phase never touches `row_number`. -/
theorem validate_rows_trees_rowNumbers_aux (cfg : Config) (tbl : String)
    (dbRows : List (String → Option String)) :
    ∀ (rows acc : List VRow),
      (rows.foldl (fun acc row =>
        acc ++ [validate_row_trees cfg tbl dbRows row acc]) acc).map VRow.rowNumber =
      acc.map VRow.rowNumber ++ rows.map VRow.rowNumber := by
  intro rows
  induction rows with
  | nil => intro acc; simp
  | cons row rest ih =>
    intro acc
    simp only [List.foldl, List.map_cons]
    rw [ih]
    simp [validate_row_trees]

/-- C2 (amended): row n (1-based) of chunk k is assigned
`row_number = n + k * CHUNK_SIZE`, but the assignment happens inside
`make_inserts`, after Phase B: tree validation passes row numbers through
unchanged (the rows it receives from the intra phase all carry none). -/
theorem c2_row_numbering (cfg : Config) (tbl : String)
    (dbRows : List (String → Option String)) (rows : List VRow) (chunkNum i : Nat)
    (hi : i < rows.length) :
    (∃ r, rows.get? i = some r ∧
      (numberRows rows chunkNum).get? i =
        some { r with rowNumber := some (i + 1 + chunkNum * CHUNK_SIZE) })
    ∧ (validate_rows_trees cfg tbl dbRows rows).map VRow.rowNumber =
        rows.map VRow.rowNumber := by
  constructor
  · obtain ⟨r, hr⟩ : ∃ r, rows.get? i = some r := by
      rcases h : rows.get? i with _ | r
      · rw [List.get?_eq_none] at h; omega
      · exact ⟨r, rfl⟩
    refine ⟨r, hr, ?_⟩
    unfold numberRows
    rw [List.get?_map, List.enum_get?, hr]
    simp [Nat.add_comm]
  · unfold validate_rows_trees
    simpa using validate_rows_trees_rowNumbers_aux cfg tbl dbRows rows []

theorem c2_row_numbering_witness :
    (0 < ([vrowX] : List VRow).length) ∧
    ((∃ r, ([vrowX] : List VRow).get? 0 = some r ∧
        (numberRows [vrowX] 0).get? 0 = some { r with rowNumber := some (0 + 1 + 0 * CHUNK_SIZE) })
      ∧ (validate_rows_trees {} "t" [] [vrowX]).map VRow.rowNumber =
          ([vrowX] : List VRow).map VRow.rowNumber) :=
  ⟨by decide, c2_row_numbering {} "t" [] [vrowX] 0 0 (by decide)⟩

/-- C2 counterexample: the claim asserts that row numbers are assigned
before Phase B; but the rows handed to `validate_rows_trees` by
`validate_rows_inter_and_insert` are exactly the output of
`validate_rows_intra`, and those rows carry no `row_number` at all (it is
only added later, inside `make_inserts`). -/
theorem c2_counterexample :
    ¬ (∀ r ∈ validate_rows_intra cfgTriv "t" [rawX],
        r.rowNumber = some (1 + 0 * CHUNK_SIZE)) := by
  intro h
  have := h { rowNumber := none, cells := intraRow cfgTriv "t" rawX }
    (by simp [validate_rows_intra])
  simp at this

/-- The `_meta` serialization of `generate_sql` stores SQL NULL exactly for
a valid cell without a nulltype key. -/
theorem storeCell_meta_none_iff (c : Cell) :
    (storeCell c).meta = none ↔ (c.valid = true ∧ c.nulltype = none) := by
  unfold storeCell
  dsimp only
  rcases hv : c.valid with _ | _ <;> rcases hn : c.nulltype with _ | nt <;> simp

theorem validate_cell_foreign_msgInv (cfg : Config)
    (fx : String → String → String → Bool) (tbl col : String) (cell : Cell)
    (h : MsgInv cell) :
    MsgInv (validate_cell_foreign_constraints cfg fx tbl col cell) := by
  unfold validate_cell_foreign_constraints
  generalize (cfg.constraints tbl).foreign.filter (fun fk => fk.column == col) = fkeys
  induction fkeys generalizing cell with
  | nil => exact h
  | cons fk rest ih =>
    simp only [List.foldl]
    split
    · exact ih cell h
    · exact ih _ (msgInv_of_valid_false rfl)

theorem validate_unique_constraints_msgInv (cfg : Config) (tbl col : String)
    (cell : Cell) (context : String → Cell) (prev : List VRow)
    (dbTable : List (Nat × (String → Option String)))
    (existingRow : Bool) (rowNumber : Option Nat) (h : MsgInv cell) :
    MsgInv (validate_unique_constraints cfg tbl col cell context prev dbTable
      existingRow rowNumber) := by
  unfold validate_unique_constraints
  dsimp only
  repeat' split
  all_goals first
    | exact h
    | exact msgInv_of_valid_false rfl
    | exact msgInv_of_valid_false (by simp)

/-- The constraint phase (the IntegrityError fallback) preserves the
invariant on every cell of every row. -/
theorem validate_rows_constraints_msgInv (cfg : Config) (tbl : String)
    (fx : String → String → String → Bool)
    (dbT : List (Nat × (String → Option String))) :
    ∀ (rows acc : List VRow), (∀ r ∈ acc, ∀ c, MsgInv (r.cells c)) →
      (∀ r ∈ rows, ∀ c, MsgInv (r.cells c)) →
      ∀ r ∈ rows.foldl
        (fun acc row => acc ++ [validate_row_constraints cfg tbl fx dbT row acc]) acc,
        ∀ c, MsgInv (r.cells c) := by
  intro rows
  induction rows with
  | nil => intro acc hacc _ r hr; exact hacc r hr
  | cons row rest ih =>
    intro acc hacc hrows r hr
    simp only [List.foldl] at hr
    refine ih (acc ++ [validate_row_constraints cfg tbl fx dbT row acc]) ?_ ?_ r hr
    · intro r' hr' c
      rcases List.mem_append.mp hr' with hr' | hr'
      · exact hacc r' hr' c
      · have hr'' : r' = validate_row_constraints cfg tbl fx dbT row acc := by
          simpa using hr'
        subst hr''
        have hrow : MsgInv (row.cells c) := hrows row (List.mem_cons_self _ _) c
        unfold validate_row_constraints
        dsimp only
        split
        · exact validate_unique_constraints_msgInv cfg tbl c _ row.cells acc dbT
            false none (validate_cell_foreign_msgInv cfg fx tbl c _ hrow)
        · exact hrow
    · intro r' hr' c
      exact hrows r' (List.mem_cons_of_mem _ hr') c

/-- The row validator behind `insert_new_row`/`update_row` preserves the
invariant: starting from cells that carry no message while marked valid,
every cell it returns does too. -/
theorem validate_row_msgInv (cfg : Config) (tbl : String)
    (fx : String → String → String → Bool)
    (dbRows : List (String → Option String))
    (dbT : List (Nat × (String → Option String)))
    (row0 : String → Cell) (existingRow : Bool) (rowNumber : Option Nat)
    (h : ∀ c, MsgInv (row0 c)) :
    ∀ c, MsgInv (validate_row cfg tbl fx dbRows dbT row0 existingRow rowNumber c) := by
  intro c
  unfold validate_row
  have h1 : MsgInv (validate_cell_nulltype cfg tbl c (row0 c)) := by
    rcases validate_cell_nulltype_cases cfg tbl c (row0 c) with hc | ⟨nt, hc⟩
    · rw [hc]; exact h c
    · rw [hc]; intro hm; exact h c hm
  have h2 : MsgInv (validate_cell_rules cfg tbl c
      (fun col => validate_cell_nulltype cfg tbl col (row0 col))
      (validate_cell_nulltype cfg tbl c (row0 c))) :=
    applyRules_msgInv c _ 1 _ _ h1
  dsimp only
  split
  · exact validate_unique_constraints_msgInv cfg tbl c _ _ [] dbT existingRow rowNumber
      (validate_cell_foreign_msgInv cfg fx tbl c _
        (validate_cell_trees_msgInv cfg tbl dbRows c _ [] _
          (validate_cell_datatype_msgInv cfg tbl c _ h2)))
  · exact h2

/-- C4: for every persisted cell - a cell of a chunk row serialized by
`generate_sql` on the success path (tree validation over the
intra-validated rows) or on the IntegrityError fallback path (constraint
validation over the intra-validated rows), or a cell of a row validated by
`validate_row` on behalf of `insert_new_row`/`update_row` (starting, as
the repository's callers do, from cells that carry no message while marked
valid) - the stored `_meta` column is SQL NULL iff the cell is valid, has
no nulltype, and has no messages. -/
theorem c4_meta_null_iff (cfg : Config) (tbl : String)
    (dbRows : List (String → Option String))
    (fx : String → String → String → Bool)
    (dbT : List (Nat × (String → Option String)))
    (raws : List RawRow) (row0 : String → Cell)
    (existingRow : Bool) (rowNumber : Option Nat) (r : VRow) (col : String)
    (hr : r ∈ validate_rows_trees cfg tbl dbRows (validate_rows_intra cfg tbl raws)
      ∨ r ∈ validate_rows_constraints cfg tbl fx dbT (validate_rows_intra cfg tbl raws)
      ∨ ((∀ c, MsgInv (row0 c)) ∧
          r.cells = validate_row cfg tbl fx dbRows dbT row0 existingRow rowNumber)) :
    (storeCell (r.cells col)).meta = none ↔
      ((r.cells col).valid = true ∧ (r.cells col).nulltype = none ∧
        (r.cells col).messages = []) := by
  have hintra : ∀ r' ∈ validate_rows_intra cfg tbl raws, ∀ c, MsgInv (r'.cells c) := by
    intro r' hr' c
    obtain ⟨raw, _, rfl⟩ := List.mem_map.mp hr'
    exact intraRow_msgInv cfg tbl raw c
  have hinv : MsgInv (r.cells col) := by
    rcases hr with hr | hr | ⟨h0, hcells⟩
    · unfold validate_rows_trees at hr
      exact validate_rows_trees_msgInv cfg tbl dbRows
        (validate_rows_intra cfg tbl raws) [] (by simp) hintra r hr col
    · unfold validate_rows_constraints at hr
      exact validate_rows_constraints_msgInv cfg tbl fx dbT
        (validate_rows_intra cfg tbl raws) [] (by simp) hintra r hr col
    · rw [hcells]
      exact validate_row_msgInv cfg tbl fx dbRows dbT row0 existingRow rowNumber h0 col
  rw [storeCell_meta_none_iff]
  constructor
  · rintro ⟨hv, hn⟩
    refine ⟨hv, hn, ?_⟩
    by_contra hm
    rw [hinv hm] at hv
    cases hv
  · rintro ⟨hv, hn, _⟩
    exact ⟨hv, hn⟩

theorem c4_meta_null_iff_witness :
    ((storeCell (rowC4.cells "a")).meta = none ↔
      ((rowC4.cells "a").valid = true ∧ (rowC4.cells "a").nulltype = none ∧
        (rowC4.cells "a").messages = [])) ∧
    (storeCell (rowC4.cells "a")).meta = none :=
  ⟨c4_meta_null_iff cfgTriv "t" [] (fun _ _ _ => false) [] [rawX]
      (fun _ => freshCell "") false none rowC4 "a"
      (Or.inl (by unfold validate_rows_trees rowC4; simp [validate_rows_intra])),
   by decide⟩

/-- C5 (amended): when a column's nulltype predicate accepts a cell's
value, intra-row validation records the nulltype on the cell and skips the
datatype check for it, but the rule checks still run on the cell: the
resulting cell is exactly the rule pass applied to the nulltyped cell. -/
theorem c5_nulltype_skips_datatype (cfg : Config) (tbl : String) (raw : RawRow)
    (col : String) (colRec : Column) (ntName : String) (ntDT : Datatype)
    (f : String → Bool)
    (hcol : cfg.column tbl col = some colRec)
    (hnt : colRec.nulltype = some ntName)
    (hdt : cfg.datatype ntName = some ntDT)
    (hf : ntDT.compiledCondition = some f)
    (hacc : f (raw col) = true) :
    (intraRow cfg tbl raw col).nulltype = some ntName ∧
    intraRow cfg tbl raw col =
      validate_cell_rules cfg tbl col
        (fun c => validate_cell_nulltype cfg tbl c (freshCell (raw c)))
        (validate_cell_nulltype cfg tbl col (freshCell (raw col))) := by
  have hpass : validate_cell_nulltype cfg tbl col (freshCell (raw col)) =
      { freshCell (raw col) with nulltype := some ntName } := by
    unfold validate_cell_nulltype
    rw [hcol]
    dsimp only
    rw [hnt]
    dsimp only
    rw [hdt]
    dsimp only
    rw [hf]
    dsimp only
    rw [show (freshCell (raw col)).value = raw col from rfl, hacc]
    simp
  have hnt2 : (validate_cell_rules cfg tbl col
      (fun c => validate_cell_nulltype cfg tbl c (freshCell (raw c)))
      (validate_cell_nulltype cfg tbl col (freshCell (raw col)))).nulltype =
        some ntName := by
    unfold validate_cell_rules
    rw [(applyRules_value_nulltype col _ 1 _ _).2, hpass]
  refine ⟨?_, ?_⟩
  · unfold intraRow
    dsimp only
    rw [if_neg (by rw [hnt2]; simp)]
    exact hnt2
  · unfold intraRow
    dsimp only
    rw [if_neg (by rw [hnt2]; simp)]

theorem c5_nulltype_skips_datatype_witness :
    (intraRow cfgC5 "t" rawC5 "a").nulltype = some "empty" ∧
    intraRow cfgC5 "t" rawC5 "a" =
      validate_cell_rules cfgC5 "t" "a"
        (fun c => validate_cell_nulltype cfgC5 "t" c (freshCell (rawC5 c)))
        (validate_cell_nulltype cfgC5 "t" "a" (freshCell (rawC5 "a"))) :=
  c5_nulltype_skips_datatype cfgC5 "t" rawC5 "a" colC5 "empty" dtEmpty
    (fun x => x == "") rfl rfl rfl rfl rfl

/-- C5 counterexample: the claim asserts that after a nulltype is assigned
no further checks run on the cell.  On this configuration (a rule whose
when-condition "null" fires on the nulltyped cell `a` and whose
then-condition fails on `b`), the nulltyped cell comes out of intra-row
validation carrying a rule message - so the rule check did run. -/
theorem c5_counterexample :
    (intraRow cfgC5 "t" rawC5 "a").nulltype = some "empty" ∧
    (intraRow cfgC5 "t" rawC5 "a").messages ≠ [] := by decide

/-- C3: for a cell in a primary, unique, or tree-child column, the
inter-row uniqueness check marks the cell invalid (appending the
appropriate key messages) iff its value duplicates an earlier row of the
chunk whose cell in this column is valid, or an already-persisted row; and
for an update of an existing row the persisted-row comparison excludes the
row with the given row number. -/
theorem c3_unique_marks_iff (cfg : Config) (tbl col : String) (cell : Cell)
    (context : String → Cell) (prev : List VRow)
    (dbTable : List (Nat × (String → Option String))) (existingRow : Bool)
    (rowNumber : Option Nat)
    (huniq : col ∈ (cfg.constraints tbl).primary ∨
      col ∈ (cfg.constraints tbl).unique ∨
      col ∈ (cfg.constraints tbl).tree.map (fun tk => tk.child)) :
    (¬((∃ p ∈ prev, (p.cells col).value = cell.value ∧ (p.cells col).valid = true) ∨
        (∃ e ∈ uniqueQueryTable dbTable existingRow rowNumber,
          e.2 col = some cell.value)) →
      validate_unique_constraints cfg tbl col cell context prev dbTable
        existingRow rowNumber = cell)
    ∧ (((∃ p ∈ prev, (p.cells col).value = cell.value ∧ (p.cells col).valid = true) ∨
        (∃ e ∈ uniqueQueryTable dbTable existingRow rowNumber,
          e.2 col = some cell.value)) →
      (validate_unique_constraints cfg tbl col cell context prev dbTable
        existingRow rowNumber).valid = false ∧
      (validate_unique_constraints cfg tbl col cell context prev dbTable
        existingRow rowNumber).messages =
        cell.messages ++ c3Msgs (cfg.constraints tbl) col)
    ∧ (∀ n e, e ∈ uniqueQueryTable dbTable true (some n) ↔ e ∈ dbTable ∧ e.1 ≠ n) := by
  have hguard : ((cfg.constraints tbl).primary.contains col ||
      (if (cfg.constraints tbl).primary.contains col then false
       else (cfg.constraints tbl).unique.contains col) ||
      ((cfg.constraints tbl).tree.map (fun tk => tk.child)).contains col) = true := by
    simp
    rcases huniq with h | h | h
    · exact Or.inl (Or.inl h)
    · by_cases hp : col ∈ (cfg.constraints tbl).primary
      · exact Or.inl (Or.inl hp)
      · exact Or.inl (Or.inr ⟨hp, h⟩)
    · obtain ⟨tk, htk, hchild⟩ := List.mem_map.mp h
      exact Or.inr ⟨tk, htk, hchild⟩
  have hdup : ∀ (b : Bool),
      (prev.any (fun p => (p.cells col).value == cell.value && (p.cells col).valid) ||
        (uniqueQueryTable dbTable existingRow rowNumber).any (fun e =>
          e.2 col == some cell.value)) = b →
      (((∃ p ∈ prev, (p.cells col).value = cell.value ∧ (p.cells col).valid = true) ∨
        (∃ e ∈ uniqueQueryTable dbTable existingRow rowNumber,
          e.2 col = some cell.value)) ↔ b = true) := by
    intro b hb
    rw [← hb]
    simp [List.any_eq_true]
  refine ⟨?_, ?_, ?_⟩
  · intro hnot
    unfold validate_unique_constraints
    rw [if_pos hguard]
    dsimp only
    rw [if_neg ?hneg]
    case hneg =>
      intro hcon
      exact hnot ((hdup _ rfl).mpr hcon)
  · intro hyes
    unfold validate_unique_constraints
    rw [if_pos hguard]
    dsimp only
    rw [if_pos ((hdup _ rfl).mp hyes)]
    simp only [c3Msgs]
    by_cases hp : col ∈ (cfg.constraints tbl).primary <;>
      by_cases hu : col ∈ (cfg.constraints tbl).unique <;>
      by_cases ht : col ∈ (cfg.constraints tbl).tree.map (fun tk => tk.child) <;>
      simp [hp, hu, ht]
  · intro n e
    unfold uniqueQueryTable
    simp [List.mem_filter, bne_iff_ne]

theorem c3_unique_marks_iff_witness :
    (validate_unique_constraints cfgC3 "t" "id" cellC3 (fun _ => freshCell "")
      [prevRowC3] [] false none).valid = false ∧
    (validate_unique_constraints cfgC3 "t" "id" cellC3 (fun _ => freshCell "")
      [prevRowC3] [] false none).messages = [uniqMsg "id" "key:primary"] := by
  have h := c3_unique_marks_iff cfgC3 "t" "id" cellC3 (fun _ => freshCell "")
    [prevRowC3] [] false none (Or.inl (by decide))
  have hdup : (∃ p ∈ [prevRowC3],
      (p.cells "id").value = cellC3.value ∧ (p.cells "id").valid = true) ∨
      (∃ e ∈ uniqueQueryTable [] false none, e.2 "id" = some cellC3.value) :=
    Or.inl ⟨prevRowC3, List.mem_singleton_self _, rfl, rfl⟩
  obtain ⟨-, h2, -⟩ := h
  have hc := h2 hdup
  refine ⟨hc.1, ?_⟩
  rw [hc.2]
  decide

/-- C6: whenever the dependency resolver returns an order, every table
with a foreign-key (`from`) constraint comes strictly after the table it
references. -/
theorem c6_foreign_dep_order (tableList : List String) (cons : String → Constraints)
    (order : List String) (A : String) (fk : FKey)
    (h : verify_table_deps_and_sort tableList cons = .ok order)
    (hA : A ∈ tableList) (hfk : fk ∈ (cons A).foreign) :
    ListBefore order fk.ftable A := by
  unfold verify_table_deps_and_sort at h
  split at h
  · cases hp : tablePairs tableList cons with
    | error e => rw [hp] at h; cases h
    | ok pairs =>
      simp only [hp] at h
      cases ht : topoStaticOrder pairs with
      | none => simp only [ht] at h; cases h
      | some ord =>
        simp only [ht, Except.ok.injEq] at h
        subst h
        unfold tablePairs at hp
        obtain ⟨b, hfa, hmem⟩ := mapM_ok_mem hp A hA
        obtain ⟨uds, hb⟩ : ∃ uds, b = (A, (cons A).foreign.map (fun fk => fk.ftable) ++ uds) := by
          cases hu : underDepsFor cons A with
          | error e => rw [hu] at hfa; cases hfa
          | ok uds =>
            rw [hu] at hfa
            simp only [Except.map, Except.ok.injEq] at hfa
            exact ⟨uds, hfa.symm⟩
        subst hb
        have hpred : fk.ftable ∈ predsOf pairs A := by
          unfold predsOf
          refine List.mem_flatMap.mpr ⟨_, List.mem_filter.mpr ⟨hmem, by simp⟩, ?_⟩
          exact List.mem_append.mpr (Or.inl (List.mem_map.mpr ⟨fk, hfk, rfl⟩))
        have hnode : A ∈ topoNodes pairs := by
          unfold topoNodes
          rw [List.mem_dedup]
          exact List.mem_append.mpr (Or.inl (List.mem_map.mpr ⟨_, hmem, rfl⟩))
        exact topoStaticOrder_respects ht hpred hnode
  · cases h

theorem c6_foreign_dep_order_witness :
    verify_table_deps_and_sort ["a", "b"] consC6 = .ok ["b", "a"] ∧
    ListBefore ["b", "a"] "b" "a" :=
  ⟨rfl,
   c6_foreign_dep_order ["a", "b"] consC6 ["b", "a"] "a"
     { column := "x", ftable := "b", fcolumn := "y" } rfl (by decide) (by decide)⟩

/-- C7 (amended): for a cell in the parent column of the table's tree
constraint, Phase B marks the cell invalid with `tree:cycle` iff the
to-be-inserted child value is an ancestor of the parent value in the
transitive closure of the `child → parent` edges over the persisted rows
unioned with the previously validated chunk rows whose child and parent
cells are both valid. -/
theorem c7_tree_cycle_iff (cfg : Config) (tbl : String)
    (dbRows : List (String → Option String)) (col : String) (cell : Cell)
    (context : String → Cell) (prev : List VRow) (tk : TKey)
    (htk : (cfg.constraints tbl).tree.filter (fun t => t.parent == col) = [tk]) :
    (Reaches (treeCycleEdges dbRows prev tk.child col) cell.value
        (context tk.child).value →
      validate_cell_trees cfg tbl dbRows col cell context prev =
        { cell with
          valid := false
          messages := cell.messages ++ [treeCycleMsg tk.child col] })
    ∧ (¬Reaches (treeCycleEdges dbRows prev tk.child col) cell.value
        (context tk.child).value →
      validate_cell_trees cfg tbl dbRows col cell context prev = cell) := by
  unfold validate_cell_trees
  rw [htk]
  simp only [List.foldl]
  constructor
  · intro h
    rw [if_pos (List.elem_eq_true_of_mem (reaches_iff_mem_reachParents.mp h))]
  · intro h
    rw [if_neg ?hneg]
    case hneg =>
      intro hcon
      exact h (reaches_iff_mem_reachParents.mpr (List.mem_of_elem_eq_true hcon))

/-- C7 counterexample: the previously validated chunk row `(child b,
parent a)` has an invalid child cell.  Over the claim's edge set (all
previously validated rows) the to-be-inserted child `a` is an ancestor of
the parent `b`, so the claim requires a `tree:cycle` marking - but the
code's `prev_selects` keeps only rows whose child and parent cells are both
valid, so the cell comes back unchanged. -/
theorem c7_counterexample :
    Reaches (claimTreeEdges [] [prevRowC7] "c" "p") "b" "a" ∧
    (ctxC7 "c").value = "a" ∧ (freshCell "b").value = "b" ∧
    validate_cell_trees cfgC7 "t" [] "p" (freshCell "b") ctxC7 [prevRowC7] =
      freshCell "b" := by
  refine ⟨Relation.TransGen.single ?_, rfl, rfl, by decide⟩
  show ("b", "a") ∈ claimTreeEdges [] [prevRowC7] "c" "p"
  decide

theorem c7_tree_cycle_iff_witness :
    validate_cell_trees cfgC7 "t" [] "p" (freshCell "b") ctxC7 [prevRowC7v] =
      { freshCell "b" with valid := false, messages := [treeCycleMsg "c" "p"] } :=
  (c7_tree_cycle_iff cfgC7 "t" [] "p" (freshCell "b") ctxC7 [prevRowC7v]
      { child := "c", parent := "p" } rfl).1
    (Relation.TransGen.single
      (show ("b", "a") ∈ treeCycleEdges [] [prevRowC7v] "c" "p" by decide))

/-- C8 (amended): for a condition that is not one of the literals, the
compiler raises `ConfigError` on an unknown function and on a bare label
naming a datatype that is not defined in the configuration.  (It performs
no arity checking: see the counterexample.) -/
theorem c8_compile_config_errors (knownDT : String → Option Datatype)
    (reFull reSearch : String → List String → String → Bool)
    (parseFn : String → List CondExpr) (s : String)
    (hs1 : s ≠ "null") (hs2 : s ≠ "not null") :
    (∀ nm args, parseFn s = [CondExpr.func nm args] →
      nm ∉ (["equals", "exclude", "match", "search", "in"] : List String) →
      ∃ m, compileCondition knownDT reFull reSearch parseFn (some s) =
        .error (.configError m))
    ∧ (∀ v, parseFn s = [CondExpr.label v] → knownDT v = none →
      ∃ m, compileCondition knownDT reFull reSearch parseFn (some s) =
        .error (.configError m)) := by
  have hlit : ([none, some "null", some "not null"] :
      List (Option String)).contains (some s) = false := by
    simp [hs1, hs2]
  constructor
  · intro nm args hparse hnm
    simp only [List.mem_cons, List.mem_singleton, not_or] at hnm
    obtain ⟨h1, h2, h3, h4, h5, _⟩ := hnm
    refine ⟨"Unrecognized condition: " ++ s, ?_⟩
    unfold compileCondition
    rw [hlit]
    dsimp only
    rw [hparse]
    dsimp only
    have hb1 : ¬((nm == "equals") = true) := by simpa using h1
    have hb2 : ¬((nm == "exclude" || nm == "match" || nm == "search") = true) := by
      simp only [Bool.or_eq_true, beq_iff_eq, not_or]
      exact ⟨⟨h2, h3⟩, h4⟩
    have hb3 : ¬((nm == "in") = true) := by simpa using h5
    rw [if_neg hb1, if_neg hb2, if_neg hb3]
    rfl
  · intro v hparse hv
    refine ⟨"Unrecognized condition: " ++ s, ?_⟩
    unfold compileCondition
    rw [hlit]
    dsimp only
    rw [hparse]
    dsimp only
    rw [hv]
    rfl

theorem c8_compile_config_errors_witness :
    (∃ m, compileCondition (fun _ => none) (fun _ _ _ => false) (fun _ _ _ => false)
      (fun _ => [CondExpr.func "frobnicate" []]) (some "frobnicate()") =
        .error (.configError m)) ∧
    (∃ m, compileCondition (fun _ => none) (fun _ _ _ => false) (fun _ _ _ => false)
      (fun _ => [CondExpr.label "mystery"]) (some "mystery") =
        .error (.configError m)) :=
  ⟨(c8_compile_config_errors (fun _ => none) (fun _ _ _ => false)
      (fun _ _ _ => false) (fun _ => [CondExpr.func "frobnicate" []]) "frobnicate()"
      (by decide) (by decide)).1 "frobnicate" [] rfl (by decide),
   (c8_compile_config_errors (fun _ => none) (fun _ _ _ => false)
      (fun _ _ _ => false) (fun _ => [CondExpr.label "mystery"]) "mystery"
      (by decide) (by decide)).2 "mystery" rfl rfl⟩

/-- C8 counterexample: `equals` takes one argument, so
`equals("a", "b")` is an arity mismatch, but `compile_condition` reads only
`args[0]` and compiles it without raising any `ConfigError` (the extra
argument is silently ignored). -/
theorem c8_counterexample :
    isConfigErr (compileCondition (fun _ => none) (fun _ _ _ => false)
      (fun _ _ _ => false) parseC8 (some "equals(\"a\", \"b\")")) = false := rfl

/-- C1: demonstrates the routing-completeness bug on a concrete chunk.
The primary-key cell of the second row fails its datatype check, so
`make_inserts` routes that row to the conflict INSERT (with its row number
2).  The main INSERT (the first row only) succeeds - the oracle verdict
`false` reflects SQLite on a fresh table with no duplicate or foreign
violations in the main partition - and on that success path the code never
executes the conflict INSERT and never commits: afterwards the second row
is in neither `t` nor `t_conflict`, violating the claim that every input
row lands in exactly one of the two with its row number. -/
theorem c1_conflict_insert_dropped :
    (make_inserts cfgC1 "t"
      (validate_rows_trees cfgC1 "t" (DBState.mainValues {})
        (validate_rows_intra cfgC1 "t" [rawOk, rawBad])) 0).2.map VRow.rowNumber =
      [some 2] ∧
    (validate_rows_inter_and_insert cfgC1 "t" (fun _ _ _ => false) (fun _ _ => false)
      {} (validate_rows_intra cfgC1 "t" [rawOk, rawBad]) 0).main.map Prod.fst = [1] ∧
    (validate_rows_inter_and_insert cfgC1 "t" (fun _ _ _ => false) (fun _ _ => false)
      {} (validate_rows_intra cfgC1 "t" [rawOk, rawBad]) 0).conflict.map Prod.fst = [] ∧
    (validate_rows_inter_and_insert cfgC1 "t" (fun _ _ _ => false) (fun _ _ => false)
      {} (validate_rows_intra cfgC1 "t" [rawOk, rawBad]) 0).commits = 0 := by
  decide

end CmiPb
